import Mathlib

/-!
# Verification development for `rilkee/distributed`

A shallow embedding of the Go sources `raft/storage.go`, `raft/server.go`,
`raft/example.go`, `queue/lock_queue.go` and `queue/lock_free_queue.go`.

Conventions of the embedding:

* a Go `map[K]V` is an association list whose order is the iteration order of
  `range`; indexing a missing key yields the zero value of `V`;
* a pointer that may be `nil` is an `Option`;
* calls that leave the process (dialling, closing a client, a remote call,
  sleeping, logging) are recorded in a trace of events, and their results are
  inputs of the embedding;
* a run-time panic or `log.Fatal` is an `Except.error` carrying a `Fault`;
* memory: allocating a node and growing a slice or a map are taken to succeed;
  for `NewLKQueue`, whose caller chooses the capacity, the range check of `make`
  and the memory at hand are modelled; `NewEngine` is evaluated on small
  clusters only and models the check of `make` for a negative `n` alone;
* every method is executed alone: the mutexes of the sources are not modelled.
-/

namespace Distributed

/-! ## Go maps -/

/-- Go map as an association list; the list order is the order of `range`. -/
abbrev GoMap (κ ν : Type) := List (κ × ν)

namespace GoMap

variable {κ ν : Type} [DecidableEq κ]

/-- Comma-ok lookup `v, found := m[k]`: `none` when the key is absent. -/
def find? : GoMap κ ν → κ → Option ν
  | [], _ => none
  | (k', v) :: m, k => if k' = k then some v else find? m k

/-- Assignment `m[k] = v`: overwrite in place when present, else add the key. -/
def assign : GoMap κ ν → κ → ν → GoMap κ ν
  | [], k, v => [(k, v)]
  | (k', v') :: m, k, v => if k' = k then (k, v) :: m else (k', v') :: assign m k v

/-- Keys in iteration order. -/
def keys (m : GoMap κ ν) : List κ := m.map Prod.fst

/-- Built-in `len(m)`. -/
def len (m : GoMap κ ν) : Nat := m.length

/-- Well-formed maps hold every key once. -/
def WF (m : GoMap κ ν) : Prop := (keys m).Nodup

end GoMap

/-! ## `raft/storage.go` -/

/-- Go `[]byte`: `none` is the nil slice. -/
abbrev Bytes := Option (List (Fin 256))

/-- MapStorage of `storage.go`; the mutex is not modelled. -/
structure MapStorage where
  m : GoMap String Bytes
  deriving DecidableEq, Repr

/-- NewMapStorage: an empty map. -/
def NewMapStorage : MapStorage := { m := [] }

/-- Method `MapStorage.Get`: returns the store (unchanged), the value and `found`. -/
def MapStorage.Get (ms : MapStorage) (key : String) : MapStorage × Bytes × Bool :=
  match GoMap.find? ms.m key with
  | some v => (ms, v, true)
  | none => (ms, none, false)

/-- Method `MapStorage.Set`: `ms.m[key] = value`. -/
def MapStorage.Set (ms : MapStorage) (key : String) (value : Bytes) : MapStorage :=
  { ms with m := GoMap.assign ms.m key value }

/-- Method `MapStorage.HasData`: `len(ms.m) > 0`. -/
def MapStorage.HasData (ms : MapStorage) : Bool := decide (GoMap.len ms.m > 0)

/-- Runs a sequence of `Set` calls, in order. -/
def MapStorage.setAll (ms : MapStorage) (ops : List (String × Bytes)) : MapStorage :=
  ops.foldl (fun st op => st.Set op.1 op.2) ms

/-! ## Faults, errors and handles shared by the server model -/

/-- Abnormal ends of a Go call, and the one abnormal end of the embedding. -/
inductive Fault where
  /-- Run-time panic: nil pointer dereference or method call on a nil interface. -/
  | nilDeref
  /-- Process exit through `log.Fatal`. -/
  | fatal
  /-- Run-time panic: close of a closed channel. -/
  | closeOfClosedChannel
  /-- Run-time panic of `make`: length or capacity out of range. -/
  | makeOutOfRange
  /-- Fatal error of the Go runtime: out of memory. -/
  | outOfMemory
  /-- Not a Go fault: a retry loop of the embedding used up its fuel. -/
  | outOfFuel
  deriving DecidableEq, Repr

/-- Go `error` values that are not nil. -/
inductive Err where
  /-- The error built by `fmt.Errorf` in `Server.Call` for peer `id`. -/
  | callAfterClosed (id : Int)
  /-- The error `fmt.Errorf("RPC failed")` of the proxy. -/
  | rpcFailed
  /-- Any error produced outside the repository (dial, close, remote call, handler). -/
  | external (code : Nat)
  deriving DecidableEq, Repr

/-- Non-nil `net.Addr`: the results of its `Network()` and `String()` methods. -/
structure Addr where
  network : String
  str : String
  deriving DecidableEq, Repr

/-- Non-nil `*rpc.Client`, identified by a number. -/
abbrev Client := Nat

/-- Connection-level effects of the server. -/
inductive ConnEvent where
  /-- The call `rpc.Dial(network, address)`. -/
  | dial (network address : String)
  /-- The call `client.Close()`. -/
  | close (c : Client)
  deriving DecidableEq, Repr

/-- One `client.Call(serviceName, args, reply)` on the transport. -/
structure CallEvent (A R : Type) where
  client : Client
  serviceName : String
  args : A
  reply : R

/-! ## Consensus Module (absent from the sources) -/

/-- Modelled from the spec: LogEntry of section 3, `{command, term}`; the
type is used by `server.go` but declared in no source file. -/
structure LogEntry where
  command : Nat
  term : Int
  deriving DecidableEq, Repr

/-- Modelled from the spec: the PersistentState that one Consensus Module owns
(section 3): `currentTerm`, `votedFor` (a node id or none) and the log. The type
`ConsensusModule` is used by `server.go` but declared in no source file. -/
structure ConsensusModule where
  currentTerm : Int
  votedFor : Option Int
  log : List LogEntry
  deriving DecidableEq, Repr

/-- Modelled from the spec: arguments of `RequestVote(term, candidateId,
lastLogIndex, lastLogTerm)` (section 6); declared in no source file. -/
structure RequestVoteArgs where
  term : Int
  candidateId : Int
  lastLogIndex : Int
  lastLogTerm : Int
  deriving DecidableEq, Repr

/-- Modelled from the spec: reply of RequestVote, `(term, voteGranted)`
(section 6); declared in no source file. -/
structure RequestVoteReply where
  term : Int
  voteGranted : Bool
  deriving DecidableEq, Repr

/-- Modelled from the spec: index of the receiver's last log entry; the log is
1-indexed and index 0 is the sentinel with no entry (section 3). -/
def ConsensusModule.lastLogIndex (cm : ConsensusModule) : Int := cm.log.length

/-- Modelled from the spec: term of the receiver's last log entry; the
sentinel of an empty log is given term 0. -/
def ConsensusModule.lastLogTerm (cm : ConsensusModule) : Int :=
  match cm.log.getLast? with
  | some e => e.term
  | none => 0

/-- Modelled from the spec: "the candidate's log is at least as up-to-date as
the receiver's (candidate's lastLogTerm > receiver's last log term, OR equal
terms and candidate's lastLogIndex ≥ receiver's)" (section 4.1). -/
def ConsensusModule.candidateUpToDate (cm : ConsensusModule) (args : RequestVoteArgs) : Bool :=
  decide (args.lastLogTerm > cm.lastLogTerm)
    || (decide (args.lastLogTerm = cm.lastLogTerm)
        && decide (args.lastLogIndex ≥ cm.lastLogIndex))

/-- Modelled from the spec: observing a term strictly greater than
`currentTerm` "adopts that term, clears votedFor" (section 4.1); the method
is part of the absent Consensus Module. -/
def ConsensusModule.adoptTerm (cm : ConsensusModule) (term : Int) : ConsensusModule :=
  if term > cm.currentTerm then { cm with currentTerm := term, votedFor := none } else cm

/-- Modelled from the spec: the RequestVote handler of a serving Consensus
Module, `ConsensusModule.RequestVote`, which `RPCProxy.RequestVote` calls and
no source file defines. Section 4.1: "Grant vote iff: requester's term ≥ own
term (adopting it first if greater); votedFor is none or already equals
candidateId for this term; AND the candidate's log is at least as up-to-date
as the receiver's. Reject (false) otherwise, still returning own current
term." A granted vote is recorded in `votedFor`. -/
def ConsensusModule.RequestVote (cm : ConsensusModule) (args : RequestVoteArgs) :
    ConsensusModule × RequestVoteReply :=
  let cm1 := cm.adoptTerm args.term
  if args.term ≥ cm1.currentTerm
      ∧ (cm1.votedFor = none ∨ cm1.votedFor = some args.candidateId)
      ∧ cm1.candidateUpToDate args = true then
    let cm2 := { cm1 with votedFor := some args.candidateId }
    (cm2, { term := cm2.currentTerm, voteGranted := true })
  else
    (cm1, { term := cm1.currentTerm, voteGranted := false })

/-! ## `raft/server.go` -/

/-- Non-nil `net.Listener`: its address and whether `Close` was called. -/
structure Listener where
  addr : Addr
  closed : Bool
  deriving DecidableEq, Repr

/-- Server of `server.go`. Channels are numbered handles; `quitClosed` tells
whether `quit` was closed; `rpcServer` holds the names registered on the
`rpc.Server`, `rpcProxy` tells whether the proxy was built; `wg` is the
`*sync.WaitGroup`, `none` for the nil pointer and otherwise its counter. The
mutex is not modelled. -/
structure Server where
  serverID : Int
  peerIds : List Int
  cm : Option ConsensusModule
  storage : MapStorage
  rpcProxy : Bool
  rpcServer : Option (List String)
  listener : Option Listener
  commitChan : Nat
  peerClients : GoMap Int (Option Client)
  ready : Nat
  quitClosed : Bool
  wg : Option Nat
  deriving DecidableEq, Repr

/-- NewServer: the struct literal sets `serverID`, `peerIds`, `storage`,
`commitChan`, `peerClients`, `ready` and `quit`; every other field keeps its
zero value. -/
def NewServer (serverID : Int) (peerIds : List Int) (storage : MapStorage)
    (commitChan : Nat) (ready : Nat) : Server :=
  { serverID := serverID
    peerIds := peerIds
    cm := none
    storage := storage
    rpcProxy := false
    rpcServer := none
    listener := none
    commitChan := commitChan
    peerClients := []
    ready := ready
    quitClosed := false
    wg := none }

/-- Index expression `s.peerClients[id]`: nil for a missing key. -/
def Server.peer (s : Server) (id : Int) : Option Client :=
  (GoMap.find? s.peerClients id).getD none

/-- The method `Server.Server` (named `Start` here, since inside the namespace
the name `Server` must keep denoting the type), up to the start of the accept
goroutine. `newCM` is the result of the absent `NewConsensusModule`, `listen`
the result of `net.Listen("tcp", ":0")`. -/
def Server.Start (s : Server) (newCM : ConsensusModule) (listen : Except Err Addr) :
    Except Fault Server :=
  let s1 := { s with cm := some newCM }
  let s2 := { s1 with rpcServer := some [], rpcProxy := true }
  let s3 := { s2 with rpcServer := some ["ConsensusModule"] }
  match listen with
  | Except.error _ => Except.error Fault.fatal
  | Except.ok a =>
    let s4 := { s3 with listener := some { addr := a, closed := false } }
    match s4.wg with
    | none => Except.error Fault.nilDeref
    | some c => Except.ok { s4 with wg := some (c + 1) }

/-- Method `Server.Call`: `remote` is the result of `peer.Call` on the transport (the
reply it writes and the error it returns). -/
def Server.Call {A R : Type} (s : Server) (id : Int) (serviceName : String) (args : A)
    (reply : R) (remote : Client → String → A → R → R × Option Err) :
    Server × R × Option Err × List (CallEvent A R) :=
  match s.peer id with
  | none => (s, reply, some (Err.callAfterClosed id), [])
  | some peer =>
    let r := remote peer serviceName args reply
    (s, r.1, r.2, [{ client := peer, serviceName := serviceName, args := args, reply := reply }])

/-- Method `Server.ShutDown`: `stop` is the absent `ConsensusModule.Stop` applied to
`s.cm` (nil receiver included); the wait on the wait group returns at once. -/
def Server.ShutDown (s : Server)
    (stop : Option ConsensusModule → Except Fault (Option ConsensusModule)) :
    Except Fault Server :=
  match stop s.cm with
  | Except.error f => Except.error f
  | Except.ok cm =>
    let s1 := { s with cm := cm }
    if s1.quitClosed then Except.error Fault.closeOfClosedChannel
    else
      let s2 := { s1 with quitClosed := true }
      match s2.listener with
      | none => Except.error Fault.nilDeref
      | some l =>
        let s3 := { s2 with listener := some { l with closed := true } }
        match s3.wg with
        | none => Except.error Fault.nilDeref
        | some _ => Except.ok s3

/-- Body of the `range` loop of `DisconnectAll` for one key. -/
def Server.disconnectStep (acc : Server × List ConnEvent) (id : Int) :
    Server × List ConnEvent :=
  match acc.1.peer id with
  | some c =>
    ({ acc.1 with peerClients := GoMap.assign acc.1.peerClients id none },
      acc.2 ++ [ConnEvent.close c])
  | none => acc

/-- Method `Server.DisconnectAll`: `for id := range s.peerClients`, over the keys the
map has when the loop starts (the loop adds and removes no key). -/
def Server.DisconnectAll (s : Server) : Server × List ConnEvent :=
  (GoMap.keys s.peerClients).foldl Server.disconnectStep (s, [])

/-- Method `Server.GetListenAddr`: panics on a nil listener. -/
def Server.GetListenAddr (s : Server) : Except Fault Addr :=
  match s.listener with
  | none => Except.error Fault.nilDeref
  | some l => Except.ok l.addr

/-- Method `Server.ConnectToPeer`: `addr` may be the nil interface; `dial` is the
result of `rpc.Dial`. -/
def Server.ConnectToPeer (s : Server) (peerId : Int) (addr : Option Addr)
    (dial : String → String → Except Err Client) :
    Except Fault (Server × Option Err × List ConnEvent) :=
  match s.peer peerId with
  | none =>
    match addr with
    | none => Except.error Fault.nilDeref
    | some a =>
      match dial a.network a.str with
      | Except.error err => Except.ok (s, some err, [ConnEvent.dial a.network a.str])
      | Except.ok client =>
        Except.ok ({ s with peerClients := GoMap.assign s.peerClients peerId (some client) },
          none, [ConnEvent.dial a.network a.str])
  | some _ => Except.ok (s, none, [])

/-- Method `Server.DisconnectPeer`: `close` is the result of `client.Close()`. -/
def Server.DisconnectPeer (s : Server) (peerId : Int) (close : Client → Option Err) :
    Server × Option Err × List ConnEvent :=
  match s.peer peerId with
  | some c =>
    ({ s with peerClients := GoMap.assign s.peerClients peerId none }, close c,
      [ConnEvent.close c])
  | none => (s, none, [])

/-! ## The fault-injection proxy of `raft/server.go` -/

/-- Effects of one proxied call, in program order. -/
inductive ProxyEvent (A R : Type) where
  /-- The call `rpp.cm.dlog(msg)`. -/
  | dlog (msg : String)
  /-- The call `time.Sleep` for `ms` milliseconds. -/
  | sleep (ms : Nat)
  /-- The call of the wrapped Consensus Module handler with `args` and `reply`. -/
  | handler (args : A) (reply : R)

/-- Result of a proxied call: the Consensus Module after it, the reply, the
returned error and the effects. -/
structure ProxyResult (σ A R : Type) where
  cm : σ
  reply : R
  err : Option Err
  trace : List (ProxyEvent A R)

/-- Method `RPCProxy.RequestVote`. Inputs of the embedding: `env` is the value of
`os.Getenv("RAFT_UNRELIABLE_RPC")`, `dice` the result of `rand.Intn(10)`,
`jitter` the result of `rand.Intn(5)`, `handler` the absent
`ConsensusModule.RequestVote` (new module state, reply written, error). -/
def RPCProxy.RequestVote {σ A R : Type} (env : String) (dice : Fin 10) (jitter : Fin 5)
    (handler : σ → A → R → σ × R × Option Err) (cm : σ) (args : A) (reply : R) :
    ProxyResult σ A R :=
  let forward (pre : List (ProxyEvent A R)) : ProxyResult σ A R :=
    let r := handler cm args reply
    { cm := r.1, reply := r.2.1, err := r.2.2, trace := pre ++ [ProxyEvent.handler args reply] }
  if env.length > 0 then
    if dice.val = 9 then
      { cm := cm, reply := reply, err := some Err.rpcFailed,
        trace := [ProxyEvent.dlog "drop RequestVote"] }
    else if dice.val = 8 then
      forward [ProxyEvent.dlog "delay RequestVote", ProxyEvent.sleep 75]
    else
      forward []
  else
    forward [ProxyEvent.sleep (1 + jitter.val)]

/-- Method `RPCProxy.AppendEntries`; inputs as for `RPCProxy.RequestVote`, `handler`
being the absent `ConsensusModule.AppendEntries`. -/
def RPCProxy.AppendEntries {σ A R : Type} (env : String) (dice : Fin 10) (jitter : Fin 5)
    (handler : σ → A → R → σ × R × Option Err) (cm : σ) (args : A) (reply : R) :
    ProxyResult σ A R :=
  let forward (pre : List (ProxyEvent A R)) : ProxyResult σ A R :=
    let r := handler cm args reply
    { cm := r.1, reply := r.2.1, err := r.2.2, trace := pre ++ [ProxyEvent.handler args reply] }
  if env.length > 0 then
    if dice.val = 9 then
      { cm := cm, reply := reply, err := some Err.rpcFailed,
        trace := [ProxyEvent.dlog "drop AppendEntries"] }
    else if dice.val = 8 then
      forward [ProxyEvent.dlog "delay AppendEntries", ProxyEvent.sleep 75]
    else
      forward []
  else
    forward [ProxyEvent.sleep (1 + jitter.val)]

/-- The handler invocations of a trace, in order: their args and reply. -/
def ProxyEvent.handlerCalls {A R : Type} : List (ProxyEvent A R) → List (A × R)
  | [] => []
  | ProxyEvent.handler a r :: t => (a, r) :: handlerCalls t
  | _ :: t => handlerCalls t

/-! ## `queue/lock_queue.go` and `queue/lock_free_queue.go` -/

/-- Go `interface{}` holding an integer: `none` is the nil interface. -/
abbrev Val := Option Int

/-- LKQueue of `lock_queue.go`; the mutex and the capacity of the slice, which
no method reads, are not modelled. -/
structure LKQueue where
  data : List Val
  deriving DecidableEq, Repr

/-- Size in bytes of one `interface{}` element on a 64-bit platform. -/
def ifaceSize : Nat := 16

/-- The constant `maxAlloc` of the Go runtime on a 64-bit platform with 48
address bits: the largest size in bytes that `make` accepts. -/
def maxAlloc : Nat := 2 ^ 48

/-- NewLKQueue: `make([]interface{}, 0, n)` allocates the backing array of `n`
elements at once. It panics ("makeslice: cap out of range") when `n` is negative
or the `ifaceSize * n` bytes of the array exceed `maxAlloc`, and the runtime
stops with "out of memory" when it cannot provide these bytes; `memAvail`, an
input of the embedding, is the number of bytes the allocator can provide. -/
def NewLKQueue (memAvail : Nat) (n : Int) : Except Fault LKQueue :=
  if n < 0 ∨ ifaceSize * n.toNat > maxAlloc then Except.error Fault.makeOutOfRange
  else if ifaceSize * n.toNat > memAvail then Except.error Fault.outOfMemory
  else Except.ok { data := [] }

/-- Method `LKQueue.Enqueue`: `q.data = append(q.data, v)`. -/
def LKQueue.Enqueue (q : LKQueue) (v : Val) : LKQueue := { data := q.data ++ [v] }

/-- Method `LKQueue.Dequeue`: nil on an empty queue, else the first element, which is
sliced off. -/
def LKQueue.Dequeue (q : LKQueue) : Val × LKQueue :=
  match q.data with
  | [] => (none, q)
  | v :: rest => (v, { data := rest })

/-- Enqueues the values in order. -/
def LKQueue.enqueueAll (q : LKQueue) (vs : List Val) : LKQueue :=
  vs.foldl LKQueue.Enqueue q

/-- Calls `Dequeue` `n` times; the values returned, in order, and the queue left. -/
def LKQueue.dequeueN : LKQueue → Nat → List Val × LKQueue
  | q, 0 => ([], q)
  | q, n + 1 =>
    let r := q.Dequeue
    let rest := dequeueN r.2 n
    (r.1 :: rest.1, rest.2)

/-- Go `unsafe.Pointer` to a node: `none` is nil, `some a` the node at address `a`. -/
abbrev Ptr := Option Nat

/-- The struct `node` of `lock_free_queue.go`. -/
structure node where
  value : Val
  next : Ptr
  deriving DecidableEq, Repr

/-- LFQueue of `lock_free_queue.go` together with the memory its pointers
refer to: `heap` lists the nodes allocated so far, by address. -/
structure LFQueue where
  heap : List node
  head : Ptr
  tail : Ptr
  deriving DecidableEq, Repr

/-- NewLFQueue: one empty node, which `head` and `tail` both point to. -/
def NewLFQueue : LFQueue :=
  { heap := [{ value := none, next := none }], head := some 0, tail := some 0 }

/-- A pointer variable handed to `load` and `cas`: `&q.head`, `&q.tail`, or
`&x.next` for the node `x` at address `a`. -/
inductive Loc where
  | head
  | tail
  | next (a : Nat)
  deriving DecidableEq, Repr

/-- Dereference of a node pointer; nil (or an address never allocated) panics. -/
def LFQueue.deref (q : LFQueue) (p : Ptr) : Except Fault node :=
  match p with
  | none => Except.error Fault.nilDeref
  | some a =>
    match q.heap[a]? with
    | none => Except.error Fault.nilDeref
    | some nd => Except.ok nd

/-- The expression `&p.next`: panics when `p` is nil. -/
def LFQueue.nextOf (p : Ptr) : Except Fault Loc :=
  match p with
  | none => Except.error Fault.nilDeref
  | some a => Except.ok (Loc.next a)

/-- The function `load`: the pointer stored in a pointer variable. -/
def LFQueue.load (q : LFQueue) : Loc → Except Fault Ptr
  | Loc.head => Except.ok q.head
  | Loc.tail => Except.ok q.tail
  | Loc.next a =>
    match q.heap[a]? with
    | none => Except.error Fault.nilDeref
    | some nd => Except.ok nd.next

/-- The function `cas`: when the variable holds `old`, store `new` and report
true; otherwise change nothing and report false. -/
def LFQueue.cas (q : LFQueue) (p : Loc) (old new : Ptr) : Except Fault (LFQueue × Bool) :=
  match p with
  | Loc.head =>
    if q.head = old then Except.ok ({ q with head := new }, true) else Except.ok (q, false)
  | Loc.tail =>
    if q.tail = old then Except.ok ({ q with tail := new }, true) else Except.ok (q, false)
  | Loc.next a =>
    match q.heap[a]? with
    | none => Except.error Fault.nilDeref
    | some nd =>
      if nd.next = old then
        Except.ok ({ q with heap := q.heap.set a { nd with next := new } }, true)
      else Except.ok (q, false)

/-- The `for` loop of `LFQueue.Enqueue` for the new node at address `n`; every
iteration costs one unit of fuel. -/
def LFQueue.enqueueLoop : Nat → LFQueue → Nat → Except Fault LFQueue
  | 0, _, _ => Except.error Fault.outOfFuel
  | fuel + 1, q, n => do
    let tail ← q.load Loc.tail
    let tailNext ← LFQueue.nextOf tail
    let next ← q.load tailNext
    let tailNow ← q.load Loc.tail
    if tail = tailNow then
      if next = none then
        let r ← q.cas tailNext next (some n)
        if r.2 then
          let r2 ← r.1.cas Loc.tail tail (some n)
          pure r2.1
        else enqueueLoop fuel r.1 n
      else
        let r ← q.cas Loc.tail tail next
        enqueueLoop fuel r.1 n
    else enqueueLoop fuel q n

/-- Method `LFQueue.Enqueue`: allocate `&node{value: v}`, then run the loop. -/
def LFQueue.Enqueue (fuel : Nat) (q : LFQueue) (v : Val) : Except Fault LFQueue :=
  LFQueue.enqueueLoop fuel { q with heap := q.heap ++ [{ value := v, next := none }] }
    q.heap.length

/-- Method `LFQueue.Dequeue`: the `for` loop; every iteration costs one unit of
fuel. -/
def LFQueue.Dequeue : Nat → LFQueue → Except Fault (Val × LFQueue)
  | 0, _ => Except.error Fault.outOfFuel
  | fuel + 1, q => do
    let head ← q.load Loc.head
    let tail ← q.load Loc.tail
    let headNext ← LFQueue.nextOf head
    let next ← q.load headNext
    let headNow ← q.load Loc.head
    if head = headNow then
      if head = tail then
        if next = none then pure (none, q)
        else
          let r ← q.cas Loc.tail tail next
          Dequeue fuel r.1
      else
        let nextNode ← q.deref next
        let v := nextNode.value
        let r ← q.cas Loc.head head next
        if r.2 then pure (v, r.1) else Dequeue fuel r.1
    else Dequeue fuel q

/-- Enqueues the values in order, each call with the given fuel. -/
def LFQueue.enqueueAll (fuel : Nat) : LFQueue → List Val → Except Fault LFQueue
  | q, [] => Except.ok q
  | q, v :: vs =>
    match q.Enqueue fuel v with
    | Except.error f => Except.error f
    | Except.ok q1 => enqueueAll fuel q1 vs

/-- Calls `Dequeue` `n` times; the values returned, in order, and the queue left. -/
def LFQueue.dequeueN (fuel : Nat) : LFQueue → Nat → Except Fault (List Val × LFQueue)
  | q, 0 => Except.ok ([], q)
  | q, n + 1 =>
    match LFQueue.Dequeue fuel q with
    | Except.error f => Except.error f
    | Except.ok r =>
      match dequeueN fuel r.2 n with
      | Except.error f => Except.error f
      | Except.ok rest => Except.ok (r.1 :: rest.1, rest.2)

/-- The body of `TestQueue` on the lock-free queue: enqueue `vs` into a fresh
queue, then dequeue as many times; the values dequeued. -/
def LFQueue.fifoRun (fuel : Nat) (vs : List Val) : Except Fault (List Val) :=
  match LFQueue.enqueueAll fuel NewLFQueue vs with
  | Except.error f => Except.error f
  | Except.ok q =>
    match LFQueue.dequeueN fuel q vs.length with
    | Except.error f => Except.error f
    | Except.ok r => Except.ok r.1

/-- The body of `TestQueue` on the lock queue built by `NewLKQueue(n)`, with
`memAvail` bytes of memory at hand. -/
def LKQueue.fifoRun (memAvail : Nat) (n : Int) (vs : List Val) : Except Fault (List Val) :=
  match NewLKQueue memAvail n with
  | Except.error f => Except.error f
  | Except.ok q => Except.ok ((q.enqueueAll vs).dequeueN vs.length).1

/-- The node expected at address `i` once `vals` were enqueued, in allocation
order: address 0 is the first dummy, address `i + 1` holds `vals[i]`, and each
node but the last points to the next address. -/
def LFQueue.expNode (vals : List Val) (i : Nat) : node :=
  { value := ((none : Val) :: vals).getD i none
    next := if i < vals.length then some (i + 1) else none }

/-- Shape of a lock-free queue reached under sequential use: `vals` were
enqueued so far, the first `k` of them were dequeued. -/
structure LFQueue.Inv (q : LFQueue) (vals : List Val) (k : Nat) : Prop where
  len : q.heap.length = vals.length + 1
  nodes : ∀ i, i ≤ vals.length → q.heap[i]? = some (LFQueue.expNode vals i)
  head : q.head = some k
  tail : q.tail = some vals.length
  le : k ≤ vals.length

/-! ## `raft/example.go` -/

/-- Modelled from the spec: CommitEntry of section 3, `{command, index, term}`;
the type is used by `example.go` and `server.go` but declared in no source file. -/
structure CommitEntry where
  command : Nat
  index : Int
  term : Int
  deriving DecidableEq, Repr

/-- Engine of `example.go`. `cluster` holds `none` for a nil `*Server`;
`commitChans` holds channel handles, `none` for a nil channel. The mutex and
the `*testing.T` are not modelled. -/
structure Engine where
  cluster : List (Option Server)
  storage : List (Option MapStorage)
  commitChans : List (Option Nat)
  commits : List (List CommitEntry)
  connected : List Bool
  alive : List Bool
  n : Int
  deriving DecidableEq, Repr

/-- The inner loop of the first loop of `NewEngine`: the ids `p` in `0..n-1`
with `p != i`, appended in increasing order. -/
def NewEngine.peerIds (n i : Nat) : List Int :=
  ((List.range n).filter (fun p => decide (p ≠ i))).map Int.ofNat

/-- One iteration of the first loop of `NewEngine` ("start every server"): the
channel `ready` has handle 0 and `commitChans[i]` handle `i + 1`. -/
def NewEngine.startOne (n : Nat) (newCM : Int → List Int → ConsensusModule)
    (listen : Nat → Except Err Addr) (e : Engine) (i : Nat) : Except Fault Engine :=
  let peerIds := NewEngine.peerIds n i
  let e1 := { e with storage := e.storage.set i (some NewMapStorage) }
  let e2 := { e1 with commitChans := e1.commitChans.set i (some (i + 1)) }
  let srv := NewServer i peerIds NewMapStorage (i + 1) 0
  match srv.Start (newCM i peerIds) (listen i) with
  | Except.error f => Except.error f
  | Except.ok started =>
    let e3 := { e2 with cluster := e2.cluster.set i (some started) }
    Except.ok { e3 with alive := e3.alive.set i true }

/-- The first loop of `NewEngine`, over the given values of `i`. -/
def NewEngine.startLoop (n : Nat) (newCM : Int → List Int → ConsensusModule)
    (listen : Nat → Except Err Addr) : List Nat → Engine → Except Fault Engine
  | [], e => Except.ok e
  | i :: rest, e =>
    match NewEngine.startOne n newCM listen e i with
    | Except.error f => Except.error f
    | Except.ok e1 => startLoop n newCM listen rest e1

/-- The statement `serverNum[i].ConnectToPeer(j, serverNum[i].GetListenAddr())`;
the returned error is dropped, as in the source. Events are tagged with the id
of the server that performs them. -/
def NewEngine.connectPair (dial : String → String → Except Err Client)
    (st : Engine × List (Nat × ConnEvent)) (i j : Nat) :
    Except Fault (Engine × List (Nat × ConnEvent)) :=
  match st.1.cluster[i]?.join, st.1.cluster[i]?.join with
  | some receiver, some addrOwner =>
    match addrOwner.GetListenAddr with
    | Except.error f => Except.error f
    | Except.ok addr =>
      match receiver.ConnectToPeer j (some addr) dial with
      | Except.error f => Except.error f
      | Except.ok r =>
        Except.ok ({ st.1 with cluster := st.1.cluster.set i (some r.1) },
          st.2 ++ r.2.2.map (fun ev => (i, ev)))
  | _, _ => Except.error Fault.nilDeref

/-- The inner loop of the second loop of `NewEngine`, over the given values of `j`. -/
def NewEngine.connectRow (dial : String → String → Except Err Client) (i : Nat) :
    List Nat → Engine × List (Nat × ConnEvent) → Except Fault (Engine × List (Nat × ConnEvent))
  | [], st => Except.ok st
  | j :: rest, st =>
    if i ≠ j then
      match NewEngine.connectPair dial st i j with
      | Except.error f => Except.error f
      | Except.ok st1 => connectRow dial i rest st1
    else connectRow dial i rest st

/-- The second loop of `NewEngine` ("connect to each other"), over the given
values of `i`, with `j` ranging over `0..n-1`. -/
def NewEngine.connectLoop (dial : String → String → Except Err Client) (n : Nat) :
    List Nat → Engine × List (Nat × ConnEvent) → Except Fault (Engine × List (Nat × ConnEvent))
  | [], st => Except.ok st
  | i :: rest, st =>
    match NewEngine.connectRow dial i (List.range n) st with
    | Except.error f => Except.error f
    | Except.ok st1 =>
      connectLoop dial n rest
        ({ st1.1 with connected := st1.1.connected.set i true }, st1.2)

/-- The slices `NewEngine` makes before its loops; `make` panics for `n < 0`. -/
def NewEngine.init (n : Int) : Except Fault Engine :=
  if n < 0 then Except.error Fault.makeOutOfRange
  else Except.ok
    { cluster := List.replicate n.toNat none
      storage := List.replicate n.toNat none
      commitChans := List.replicate n.toNat none
      commits := List.replicate n.toNat []
      connected := List.replicate n.toNat false
      alive := List.replicate n.toNat false
      n := n }

/-- NewEngine up to the start of the `CollectCommits` goroutines: the engine
built and the dial and close events of the servers. `newCM` is the absent
`NewConsensusModule`, `listen i` the result of `net.Listen` in server `i`,
`dial` the result of `rpc.Dial`. -/
def NewEngine (n : Int) (newCM : Int → List Int → ConsensusModule)
    (listen : Nat → Except Err Addr) (dial : String → String → Except Err Client) :
    Except Fault (Engine × List (Nat × ConnEvent)) :=
  match NewEngine.init n with
  | Except.error f => Except.error f
  | Except.ok e0 =>
    match NewEngine.startLoop n.toNat newCM listen (List.range n.toNat) e0 with
    | Except.error f => Except.error f
    | Except.ok e1 => NewEngine.connectLoop dial n.toNat (List.range n.toNat) (e1, [])

/-- The dial events of a trace: who dialled which network and address. -/
def dialsOf (tr : List (Nat × ConnEvent)) : List (Nat × String × String) :=
  tr.filterMap (fun x =>
    match x.2 with
    | ConnEvent.dial nw a => some (x.1, nw, a)
    | ConnEvent.close _ => none)

/-! ## Lemmas on Go maps -/

namespace GoMap

variable {κ ν : Type} [DecidableEq κ]

theorem find?_assign_self (m : GoMap κ ν) (k : κ) (v : ν) :
    find? (assign m k v) k = some v := by
  induction m with
  | nil => simp [assign, find?]
  | cons e m ih =>
    obtain ⟨k', v'⟩ := e
    by_cases h : k' = k
    · simp [assign, find?, h]
    · simp [assign, find?, h, ih]

theorem find?_assign_of_ne (m : GoMap κ ν) {k j : κ} (v : ν) (h : j ≠ k) :
    find? (assign m k v) j = find? m j := by
  induction m with
  | nil =>
    have h2 : ¬ k = j := fun e => h e.symm
    simp [assign, find?, h2]
  | cons e m ih =>
    obtain ⟨k', v'⟩ := e
    by_cases h1 : k' = k
    · subst h1
      have h2 : ¬ k' = j := fun e => h e.symm
      simp [assign, find?, h2]
    · by_cases h2 : k' = j
      · subst h2
        simp [assign, find?, h1]
      · simp [assign, find?, h1, h2, ih]

theorem find?_eq_none_iff (m : GoMap κ ν) (k : κ) :
    find? m k = none ↔ k ∉ keys m := by
  induction m with
  | nil => simp [find?, keys]
  | cons e m ih =>
    obtain ⟨k', v'⟩ := e
    by_cases h : k' = k
    · simp [find?, keys, h]
    · have h2 : ¬ k = k' := fun e => h e.symm
      simp only [keys] at ih
      simp [find?, keys, h, h2, ih]

theorem assign_ne_nil (m : GoMap κ ν) (k : κ) (v : ν) : assign m k v ≠ [] := by
  cases m with
  | nil => simp [assign]
  | cons e m =>
    obtain ⟨k', v'⟩ := e
    by_cases h : k' = k <;> simp [assign, h]

theorem keys_assign_of_mem (m : GoMap κ ν) {k : κ} (v : ν) (h : k ∈ keys m) :
    keys (assign m k v) = keys m := by
  induction m with
  | nil => simp [keys] at h
  | cons e m ih =>
    obtain ⟨k', v'⟩ := e
    by_cases h1 : k' = k
    · simp [assign, keys, h1]
    · have h2 : k ∈ keys m := by
        simp only [keys, List.map_cons, List.mem_cons] at h
        rcases h with h | h
        · exact absurd h.symm h1
        · exact h
      have := ih h2
      simp only [keys] at this
      simp [assign, keys, h1, this]

end GoMap

/-! ## Theorems on `MapStorage` -/

theorem MapStorage.find?_setAll_of_not_mem (ops : List (String × Bytes)) (ms : MapStorage)
    (k : String) (h : k ∉ ops.map Prod.fst) :
    GoMap.find? (ms.setAll ops).m k = GoMap.find? ms.m k := by
  induction ops generalizing ms with
  | nil => rfl
  | cons op ops ih =>
    simp only [List.map_cons, List.mem_cons, not_or] at h
    have := ih (ms.Set op.1 op.2) h.2
    simp only [MapStorage.setAll, List.foldl_cons] at this ⊢
    rw [this]
    exact GoMap.find?_assign_of_ne ms.m op.2 h.1

theorem MapStorage.hasData_setAll (ops : List (String × Bytes)) (ms : MapStorage)
    (h : ms.HasData = true) : (ms.setAll ops).HasData = true := by
  induction ops generalizing ms with
  | nil => exact h
  | cons op ops ih =>
    simp only [MapStorage.setAll, List.foldl_cons]
    apply ih
    have := GoMap.assign_ne_nil ms.m op.1 op.2
    simp only [MapStorage.HasData, MapStorage.Set, GoMap.len, decide_eq_true_eq]
    exact List.length_pos.mpr this

theorem MapStorage.Get_fst (ms : MapStorage) (k : String) : (ms.Get k).1 = ms := by
  simp only [MapStorage.Get]
  split <;> rfl

theorem MapStorage.Get_snd (ms : MapStorage) (k : String) :
    (ms.Get k).2 = ((GoMap.find? ms.m k).getD none, (GoMap.find? ms.m k).isSome) := by
  simp only [MapStorage.Get]
  split <;> rename_i h <;> simp [h]

/-- C3: after `Set(k, v)`, `Get(k)` returns `(v, true)`; `Get` of any other key
returns what it returned before; on a store built by `NewMapStorage` followed
by any sequence of `Set` calls, `Get` of a key that was never set returns
`found = false`; `Get` never changes the store. -/
theorem MapStorage.get_set_roundtrip_and_frame (ms : MapStorage) (k : String) (v : Bytes) :
    ((ms.Set k v).Get k).2 = (v, true)
    ∧ (∀ j : String, j ≠ k → ((ms.Set k v).Get j).2 = (ms.Get j).2)
    ∧ (∀ (ops : List (String × Bytes)) (j : String), j ∉ ops.map Prod.fst →
        ((NewMapStorage.setAll ops).Get j).2.2 = false)
    ∧ (∀ j : String, (ms.Get j).1 = ms) := by
  refine ⟨?_, ?_, ?_, ?_⟩
  · simp [MapStorage.Get_snd, MapStorage.Set, GoMap.find?_assign_self]
  · intro j hj
    simp [MapStorage.Get_snd, MapStorage.Set, GoMap.find?_assign_of_ne ms.m v hj]
  · intro ops j hj
    have := MapStorage.find?_setAll_of_not_mem ops NewMapStorage j hj
    rw [MapStorage.Get_snd, this]
    rfl
  · exact fun j => MapStorage.Get_fst ms j

/-- C4: `HasData` is false on a fresh store, true after any `Set` (also of an
empty or nil value), true exactly when some key has `found = true`, and stays
true under every further sequence of `Set` and `Get` calls. -/
theorem MapStorage.hasData_spec (ms : MapStorage) :
    NewMapStorage.HasData = false
    ∧ (∀ (k : String) (v : Bytes), (ms.Set k v).HasData = true)
    ∧ (ms.HasData = true ↔ ∃ k : String, (ms.Get k).2.2 = true)
    ∧ (ms.HasData = true →
        (∀ ops : List (String × Bytes), (ms.setAll ops).HasData = true)
        ∧ (∀ k : String, (ms.Get k).1.HasData = true)) := by
  refine ⟨rfl, ?_, ?_, ?_⟩
  · intro k v
    have := GoMap.assign_ne_nil ms.m k v
    simp only [MapStorage.HasData, MapStorage.Set, GoMap.len, decide_eq_true_eq]
    exact List.length_pos.mpr this
  · obtain ⟨m⟩ := ms
    cases m with
    | nil => simp [MapStorage.HasData, MapStorage.Get, GoMap.len, GoMap.find?]
    | cons e m =>
      obtain ⟨k', v'⟩ := e
      simp only [MapStorage.HasData, GoMap.len, List.length_cons, gt_iff_lt, Nat.zero_lt_succ,
        decide_True, true_iff]
      exact ⟨k', by simp [MapStorage.Get, GoMap.find?]⟩
  · intro h
    refine ⟨fun ops => MapStorage.hasData_setAll ops ms h, ?_⟩
    intro k
    rw [MapStorage.Get_fst]
    exact h

/-! ## Theorems on the peer-connection map of `Server` -/

theorem Server.peer_assign_self (s : Server) (id : Int) (v : Option Client) :
    Server.peer { s with peerClients := GoMap.assign s.peerClients id v } id = v := by
  simp [Server.peer, GoMap.find?_assign_self]

theorem Server.peer_assign_of_ne (s : Server) {id j : Int} (v : Option Client) (h : j ≠ id) :
    Server.peer { s with peerClients := GoMap.assign s.peerClients id v } j = s.peer j := by
  simp [Server.peer, GoMap.find?_assign_of_ne s.peerClients v h]

theorem Server.mem_keys_of_peer {s : Server} {id : Int} {c : Client}
    (h : s.peer id = some c) : id ∈ GoMap.keys s.peerClients := by
  by_contra hn
  have := (GoMap.find?_eq_none_iff s.peerClients id).mpr hn
  simp [Server.peer, this] at h

theorem Server.disconnectLoop_noop (ks : List Int) (s : Server) (tr : List ConnEvent)
    (h : ∀ id ∈ ks, s.peer id = none) :
    ks.foldl Server.disconnectStep (s, tr) = (s, tr) := by
  induction ks with
  | nil => rfl
  | cons id ks ih =>
    have h0 : s.peer id = none := h id (List.mem_cons_self _ _)
    have hstep : Server.disconnectStep (s, tr) id = (s, tr) := by
      simp [Server.disconnectStep, h0]
    rw [List.foldl_cons, hstep]
    exact ih (fun j hj => h j (List.mem_cons_of_mem _ hj))

theorem Server.disconnectLoop_spec (ks : List Int) (hnd : ks.Nodup) (s : Server)
    (tr : List ConnEvent) :
    (∀ j, (ks.foldl Server.disconnectStep (s, tr)).1.peer j
        = if j ∈ ks then none else s.peer j)
    ∧ GoMap.keys (ks.foldl Server.disconnectStep (s, tr)).1.peerClients
        = GoMap.keys s.peerClients
    ∧ (ks.foldl Server.disconnectStep (s, tr)).2
        = tr ++ (ks.filterMap s.peer).map ConnEvent.close
    ∧ (∃ m, (ks.foldl Server.disconnectStep (s, tr)).1 = { s with peerClients := m }) := by
  induction ks generalizing s tr with
  | nil => exact ⟨by simp, rfl, by simp, s.peerClients, rfl⟩
  | cons id ks ih =>
    have hid : id ∉ ks := (List.nodup_cons.mp hnd).1
    have hks : ks.Nodup := (List.nodup_cons.mp hnd).2
    rw [List.foldl_cons]
    cases h0 : s.peer id with
    | none =>
      have hstep : Server.disconnectStep (s, tr) id = (s, tr) := by
        simp [Server.disconnectStep, h0]
      rw [hstep]
      obtain ⟨h1, h2, h3, h4⟩ := ih hks s tr
      refine ⟨?_, h2, ?_, h4⟩
      · intro j
        rw [h1 j]
        by_cases hj : j = id
        · subst hj
          simp [h0]
        · simp [hj]
      · rw [h3]
        simp [List.filterMap_cons, h0]
    | some c =>
      have hstep : Server.disconnectStep (s, tr) id
          = ({ s with peerClients := GoMap.assign s.peerClients id none },
              tr ++ [ConnEvent.close c]) := by
        simp [Server.disconnectStep, h0]
      rw [hstep]
      obtain ⟨h1, h2, h3, h4⟩ :=
        ih hks { s with peerClients := GoMap.assign s.peerClients id none }
          (tr ++ [ConnEvent.close c])
      refine ⟨?_, ?_, ?_, ?_⟩
      · intro j
        rw [h1 j]
        by_cases hj : j = id
        · subst hj
          simp [Server.peer_assign_self]
        · simp [hj, Server.peer_assign_of_ne s none hj]
      · rw [h2]
        exact GoMap.keys_assign_of_mem s.peerClients none (Server.mem_keys_of_peer h0)
      · rw [h3]
        have hcongr : ks.filterMap
            (Server.peer { s with peerClients := GoMap.assign s.peerClients id none })
            = ks.filterMap s.peer := by
          apply List.filterMap_congr
          intro j hj
          have hne : j ≠ id := fun e => hid (e ▸ hj)
          exact Server.peer_assign_of_ne s none hne
        rw [hcongr]
        simp [List.filterMap_cons, h0]
      · obtain ⟨m, hm⟩ := h4
        exact ⟨m, hm⟩

/-- C1: `ConnectToPeer` on a peer that already has a client dials nothing,
returns nil and leaves the server (its whole peer-connection map included)
unchanged, whatever the address (nil included) and the dialler; `DisconnectPeer`
on a peer without a client closes nothing, returns nil and leaves the server
unchanged. -/
theorem Server.connect_disconnect_noop (s : Server) (peerId : Int) :
    (∀ c : Client, s.peer peerId = some c →
      ∀ (addr : Option Addr) (dial : String → String → Except Err Client),
        s.ConnectToPeer peerId addr dial = Except.ok (s, none, []))
    ∧ (s.peer peerId = none →
      ∀ close : Client → Option Err, s.DisconnectPeer peerId close = (s, none, [])) := by
  constructor
  · intro c hc addr dial
    simp [Server.ConnectToPeer, hc]
  · intro hn close
    simp [Server.DisconnectPeer, hn]

/-- C1 at a concrete server: peer 1 is connected (client 7), peer 2 is not. -/
theorem Server.connect_disconnect_noop_witness :
    ((({ NewServer 0 [1, 2] NewMapStorage 1 0 with peerClients := [(1, some 7)] } : Server).ConnectToPeer
          1 (some ⟨"tcp", "a1"⟩) (fun _ _ => Except.ok 9)).toOption
        = some ({ NewServer 0 [1, 2] NewMapStorage 1 0 with peerClients := [(1, some 7)] }, none, []))
    ∧ ({ NewServer 0 [1, 2] NewMapStorage 1 0 with peerClients := [(1, some 7)] } : Server).DisconnectPeer
          2 (fun _ => some (Err.external 1))
        = ({ NewServer 0 [1, 2] NewMapStorage 1 0 with peerClients := [(1, some 7)] }, none, []) := by
  constructor
  · rw [(Server.connect_disconnect_noop _ 1).1 7 (by decide)]
    rfl
  · exact (Server.connect_disconnect_noop _ 2).2 (by decide) _

/-- C2: `Call` returns the closed-peer error, performs no transport call and
leaves `reply` alone exactly when the server has no client for `id`; otherwise
it performs one call on that client and returns the reply and error of that
call. The server is unchanged in both cases. A freshly built server and a
server after `DisconnectPeer(id)` have no client for `id`. -/
theorem Server.Call_spec {A R : Type} (s : Server) (id : Int) (serviceName : String)
    (args : A) (reply : R) (remote : Client → String → A → R → R × Option Err) :
    (s.peer id = none ↔ (s.Call id serviceName args reply remote).2.2.2 = [])
    ∧ (s.peer id = none →
        s.Call id serviceName args reply remote
          = (s, reply, some (Err.callAfterClosed id), []))
    ∧ (∀ c : Client, s.peer id = some c →
        s.Call id serviceName args reply remote
          = (s, (remote c serviceName args reply).1, (remote c serviceName args reply).2,
              [{ client := c, serviceName := serviceName, args := args, reply := reply }]))
    ∧ (s.Call id serviceName args reply remote).1 = s
    ∧ (∀ (serverID : Int) (peerIds : List Int) (st : MapStorage) (ch rd : Nat),
        (NewServer serverID peerIds st ch rd).peer id = none)
    ∧ (∀ close : Client → Option Err, (s.DisconnectPeer id close).1.peer id = none) := by
  refine ⟨?_, ?_, ?_, ?_, ?_, ?_⟩
  · cases h : s.peer id <;> simp [Server.Call, h]
  · intro h
    simp [Server.Call, h]
  · intro c h
    simp [Server.Call, h]
  · cases h : s.peer id <;> simp [Server.Call, h]
  · intro serverID peerIds st ch rd
    rfl
  · intro close
    cases h : s.peer id with
    | none => simp [Server.DisconnectPeer, h]
    | some c => simp [Server.DisconnectPeer, h, Server.peer_assign_self]

/-- C2 at a concrete server: peer 1 has client 7, peer 2 has none; the
transport answers with reply 5 and no error. -/
theorem Server.Call_spec_witness :
    ({ NewServer 0 [1, 2] NewMapStorage 1 0 with peerClients := [(1, some 7)] } : Server).Call
        2 "ConsensusModule.RequestVote" (3 : Nat) (0 : Nat) (fun _ _ _ _ => (5, none))
      = ({ NewServer 0 [1, 2] NewMapStorage 1 0 with peerClients := [(1, some 7)] }, 0,
          some (Err.callAfterClosed 2), [])
    ∧ ({ NewServer 0 [1, 2] NewMapStorage 1 0 with peerClients := [(1, some 7)] } : Server).Call
        1 "ConsensusModule.RequestVote" (3 : Nat) (0 : Nat) (fun _ _ _ _ => (5, none))
      = ({ NewServer 0 [1, 2] NewMapStorage 1 0 with peerClients := [(1, some 7)] }, 5, none,
          [{ client := 7, serviceName := "ConsensusModule.RequestVote", args := 3, reply := 0 }]) :=
  ⟨(Server.Call_spec _ 2 _ 3 0 _).2.1 (by decide),
    (Server.Call_spec _ 1 _ 3 0 _).2.2.1 7 (by decide)⟩

/-- C7: on a server whose map holds every key once, after `DisconnectAll` no
peer id has a client, so `Call` to any peer returns the closed-peer error
without a transport call; the clients closed are exactly the clients the map
held, one `Close` for each key with a client, in iteration order; nothing but
the map changes; a second `DisconnectAll` closes nothing and changes nothing. -/
theorem Server.DisconnectAll_spec (s : Server) (hwf : GoMap.WF s.peerClients) :
    (∀ id : Int, s.DisconnectAll.1.peer id = none)
    ∧ (∀ (A R : Type) (id : Int) (serviceName : String) (args : A) (reply : R)
        (remote : Client → String → A → R → R × Option Err),
        s.DisconnectAll.1.Call id serviceName args reply remote
          = (s.DisconnectAll.1, reply, some (Err.callAfterClosed id), []))
    ∧ s.DisconnectAll.2
        = ((GoMap.keys s.peerClients).filterMap s.peer).map ConnEvent.close
    ∧ (∀ c : Client, ConnEvent.close c ∈ s.DisconnectAll.2 ↔ ∃ id : Int, s.peer id = some c)
    ∧ (∃ m, s.DisconnectAll.1 = { s with peerClients := m })
    ∧ s.DisconnectAll.1.DisconnectAll = (s.DisconnectAll.1, []) := by
  obtain ⟨h1, h2, h3, h4⟩ := Server.disconnectLoop_spec (GoMap.keys s.peerClients) hwf s []
  have hnone : ∀ id : Int, s.DisconnectAll.1.peer id = none := by
    intro id
    have := h1 id
    simp only [Server.DisconnectAll]
    rw [this]
    by_cases hmem : id ∈ GoMap.keys s.peerClients
    · simp [hmem]
    · have := (GoMap.find?_eq_none_iff s.peerClients id).mpr hmem
      simp [hmem, Server.peer, this]
  refine ⟨hnone, ?_, ?_, ?_, h4, ?_⟩
  · intro A R id serviceName args reply remote
    simp [Server.Call, hnone id]
  · simpa [Server.DisconnectAll] using h3
  · intro c
    have h3' : s.DisconnectAll.2
        = ((GoMap.keys s.peerClients).filterMap s.peer).map ConnEvent.close := by
      simpa [Server.DisconnectAll] using h3
    rw [h3']
    simp only [List.mem_map, List.mem_filterMap, ConnEvent.close.injEq]
    constructor
    · rintro ⟨c', ⟨id, _, hid⟩, rfl⟩
      exact ⟨id, hid⟩
    · rintro ⟨id, hid⟩
      exact ⟨c, ⟨id, Server.mem_keys_of_peer hid, hid⟩, rfl⟩
  · have := Server.disconnectLoop_noop (GoMap.keys s.DisconnectAll.1.peerClients)
      s.DisconnectAll.1 [] (fun id _ => hnone id)
    simpa [Server.DisconnectAll] using this

/-- C7 at a concrete server: peers 1 and 3 are connected, peer 2 was
disconnected before. -/
theorem Server.DisconnectAll_spec_witness :
    GoMap.WF ({ NewServer 0 [1, 2, 3] NewMapStorage 1 0 with
        peerClients := [(1, some 7), (2, none), (3, some 8)] } : Server).peerClients
    ∧ ({ NewServer 0 [1, 2, 3] NewMapStorage 1 0 with
        peerClients := [(1, some 7), (2, none), (3, some 8)] } : Server).DisconnectAll.2
        = [ConnEvent.close 7, ConnEvent.close 8]
    ∧ ({ NewServer 0 [1, 2, 3] NewMapStorage 1 0 with
        peerClients := [(1, some 7), (2, none), (3, some 8)] } : Server).DisconnectAll.1.DisconnectAll
        = ({ NewServer 0 [1, 2, 3] NewMapStorage 1 0 with
              peerClients := [(1, none), (2, none), (3, none)] }, []) := by
  have hwf : GoMap.WF ({ NewServer 0 [1, 2, 3] NewMapStorage 1 0 with
        peerClients := [(1, some 7), (2, none), (3, some 8)] } : Server).peerClients := by
    simp [GoMap.WF, GoMap.keys, NewServer]
  have h := Server.DisconnectAll_spec _ hwf
  refine ⟨hwf, ?_, ?_⟩
  · rw [h.2.2.1]
    rfl
  · rw [h.2.2.2.2.2]
    rfl

/-! ## Theorems on the fault-injection proxy -/

/-- C5: for `RPCProxy.RequestVote` and `RPCProxy.AppendEntries` alike: with the
toggle set and draw 9 the proxy returns the error "RPC failed", never invokes
the handler and leaves the reply and the module alone; with the toggle set and
any other draw, and always with the toggle absent, the handler is invoked
exactly once, with the same args and reply, and its module state, reply and
error are returned unchanged. -/
theorem RPCProxy.drop_or_forward {σ A R : Type} (env : String) (dice : Fin 10)
    (jitter : Fin 5) (handler : σ → A → R → σ × R × Option Err) (cm : σ) (args : A)
    (reply : R) :
    ((env.length > 0 ∧ dice.val = 9) →
      (RPCProxy.RequestVote env dice jitter handler cm args reply).err = some Err.rpcFailed
      ∧ ProxyEvent.handlerCalls (RPCProxy.RequestVote env dice jitter handler cm args reply).trace = []
      ∧ (RPCProxy.RequestVote env dice jitter handler cm args reply).reply = reply
      ∧ (RPCProxy.RequestVote env dice jitter handler cm args reply).cm = cm
      ∧ (RPCProxy.AppendEntries env dice jitter handler cm args reply).err = some Err.rpcFailed
      ∧ ProxyEvent.handlerCalls (RPCProxy.AppendEntries env dice jitter handler cm args reply).trace = []
      ∧ (RPCProxy.AppendEntries env dice jitter handler cm args reply).reply = reply
      ∧ (RPCProxy.AppendEntries env dice jitter handler cm args reply).cm = cm)
    ∧ (¬ (env.length > 0 ∧ dice.val = 9) →
      (RPCProxy.RequestVote env dice jitter handler cm args reply).err = (handler cm args reply).2.2
      ∧ ProxyEvent.handlerCalls (RPCProxy.RequestVote env dice jitter handler cm args reply).trace
          = [(args, reply)]
      ∧ (RPCProxy.RequestVote env dice jitter handler cm args reply).reply = (handler cm args reply).2.1
      ∧ (RPCProxy.RequestVote env dice jitter handler cm args reply).cm = (handler cm args reply).1
      ∧ (RPCProxy.AppendEntries env dice jitter handler cm args reply).err = (handler cm args reply).2.2
      ∧ ProxyEvent.handlerCalls (RPCProxy.AppendEntries env dice jitter handler cm args reply).trace
          = [(args, reply)]
      ∧ (RPCProxy.AppendEntries env dice jitter handler cm args reply).reply
          = (handler cm args reply).2.1
      ∧ (RPCProxy.AppendEntries env dice jitter handler cm args reply).cm = (handler cm args reply).1) := by
  constructor
  · rintro ⟨he, hd⟩
    simp [RPCProxy.RequestVote, RPCProxy.AppendEntries, he, hd, ProxyEvent.handlerCalls]
  · intro h
    by_cases he : env.length > 0
    · have hd : ¬ dice.val = 9 := fun hd => h ⟨he, hd⟩
      by_cases h8 : dice.val = 8
      · simp [RPCProxy.RequestVote, RPCProxy.AppendEntries, he, h8, ProxyEvent.handlerCalls]
      · simp [RPCProxy.RequestVote, RPCProxy.AppendEntries, he, hd, h8, ProxyEvent.handlerCalls]
    · simp [RPCProxy.RequestVote, RPCProxy.AppendEntries, he, ProxyEvent.handlerCalls]

/-- C5 at concrete inputs: with the toggle set to "1" and draw 9 the call is
dropped; with the toggle absent (empty value) the same draw forwards the call
to the handler, which here answers with reply 4 and no error. -/
theorem RPCProxy.drop_or_forward_witness :
    (RPCProxy.RequestVote "1" 9 0 (fun (cm a _ : Nat) => (cm + 1, a + 1, none)) 0 3 0).err
        = some Err.rpcFailed
    ∧ ProxyEvent.handlerCalls
        (RPCProxy.RequestVote "1" 9 0 (fun (cm a _ : Nat) => (cm + 1, a + 1, none)) 0 3 0).trace = []
    ∧ (RPCProxy.AppendEntries "" 9 0 (fun (cm a _ : Nat) => (cm + 1, a + 1, none)) 0 3 0).reply = 4
    ∧ ProxyEvent.handlerCalls
        (RPCProxy.AppendEntries "" 9 0 (fun (cm a _ : Nat) => (cm + 1, a + 1, none)) 0 3 0).trace
        = [(3, 0)] :=
  ⟨((RPCProxy.drop_or_forward "1" 9 0 _ 0 3 0).1 (by decide)).1,
    ((RPCProxy.drop_or_forward "1" 9 0 _ 0 3 0).1 (by decide)).2.1,
    ((RPCProxy.drop_or_forward "" 9 0 _ 0 3 0).2 (by decide)).2.2.2.2.2.2.1,
    ((RPCProxy.drop_or_forward "" 9 0 _ 0 3 0).2 (by decide)).2.2.2.2.2.1⟩

/-! ## Theorems on the RequestVote handler -/

/-- C8: the RequestVote handler grants the vote exactly when the requester's
term is at least the receiver's, the receiver (after adopting a greater term,
which clears its vote) has voted for nobody or for this candidate, and the
candidate's log is at least as up-to-date as the receiver's; otherwise
`voteGranted` is false; the reply always carries the receiver's current term,
which is the greater of its old term and the requester's when that is adopted. -/
theorem ConsensusModule.RequestVote_grant_iff (cm : ConsensusModule) (args : RequestVoteArgs) :
    ((cm.RequestVote args).2.voteGranted = true ↔
      (args.term ≥ cm.currentTerm
        ∧ ((cm.adoptTerm args.term).votedFor = none
            ∨ (cm.adoptTerm args.term).votedFor = some args.candidateId)
        ∧ (args.lastLogTerm > cm.lastLogTerm
            ∨ (args.lastLogTerm = cm.lastLogTerm ∧ args.lastLogIndex ≥ cm.lastLogIndex))))
    ∧ ((cm.RequestVote args).2.voteGranted = true ∨ (cm.RequestVote args).2.voteGranted = false)
    ∧ (cm.RequestVote args).2.term = (cm.RequestVote args).1.currentTerm
    ∧ (cm.RequestVote args).1.currentTerm = max cm.currentTerm args.term
    ∧ (args.term > cm.currentTerm → (cm.adoptTerm args.term).votedFor = none)
    ∧ (args.term ≤ cm.currentTerm → (cm.adoptTerm args.term).votedFor = cm.votedFor) := by
  have hterm : (cm.adoptTerm args.term).currentTerm = max cm.currentTerm args.term := by
    unfold ConsensusModule.adoptTerm
    split
    · rename_i h
      simp only
      omega
    · rename_i h
      omega
  have hlog : (cm.adoptTerm args.term).log = cm.log := by
    unfold ConsensusModule.adoptTerm
    split <;> rfl
  have hup : (cm.adoptTerm args.term).candidateUpToDate args = true ↔
      (args.lastLogTerm > cm.lastLogTerm
        ∨ (args.lastLogTerm = cm.lastLogTerm ∧ args.lastLogIndex ≥ cm.lastLogIndex)) := by
    simp [ConsensusModule.candidateUpToDate, ConsensusModule.lastLogTerm,
      ConsensusModule.lastLogIndex, hlog]
  have hge : args.term ≥ (cm.adoptTerm args.term).currentTerm ↔ args.term ≥ cm.currentTerm := by
    rw [hterm]
    omega
  refine ⟨?_, ?_, ?_, ?_, ?_, ?_⟩
  · unfold ConsensusModule.RequestVote
    simp only
    split
    · rename_i h
      simp only [true_iff]
      exact ⟨hge.mp h.1, h.2.1, hup.mp h.2.2⟩
    · rename_i h
      simp only [Bool.false_eq_true, false_iff]
      rintro ⟨h1, h2, h3⟩
      exact h ⟨hge.mpr h1, h2, hup.mpr h3⟩
  · cases (cm.RequestVote args).2.voteGranted <;> simp
  · unfold ConsensusModule.RequestVote
    simp only
    split <;> rfl
  · unfold ConsensusModule.RequestVote
    simp only
    split <;> exact hterm
  · intro h
    simp [ConsensusModule.adoptTerm, h]
  · intro h
    have : ¬ args.term > cm.currentTerm := by omega
    simp [ConsensusModule.adoptTerm, this]

/-! ## Theorems on the queues -/

theorem LFQueue.expNode_append_of_lt (vals : List Val) (v : Val) {i : Nat}
    (h : i < vals.length) : LFQueue.expNode (vals ++ [v]) i = LFQueue.expNode vals i := by
  have h1 : i < (vals ++ [v]).length := by simp; omega
  have h2 : i < ((none : Val) :: vals).length := by simp; omega
  simp only [LFQueue.expNode, h, h1, if_true, node.mk.injEq, and_true]
  rw [← List.cons_append, List.getD_append _ _ _ _ h2]

theorem LFQueue.expNode_append_length (vals : List Val) (v : Val) :
    LFQueue.expNode (vals ++ [v]) vals.length
      = { LFQueue.expNode vals vals.length with next := some (vals.length + 1) } := by
  have h2 : vals.length < ((none : Val) :: vals).length := by simp
  simp only [LFQueue.expNode, List.length_append, List.length_singleton, Nat.lt_succ_self,
    if_true, node.mk.injEq, and_true]
  rw [← List.cons_append, List.getD_append _ _ _ _ h2]

theorem LFQueue.expNode_append_succ (vals : List Val) (v : Val) :
    LFQueue.expNode (vals ++ [v]) (vals.length + 1) = { value := v, next := none } := by
  simp only [LFQueue.expNode, List.length_append, List.length_singleton, Nat.lt_irrefl,
    if_false, node.mk.injEq, and_true]
  rw [List.getD_cons_succ, List.getD_eq_getElem?_getD, List.getElem?_concat_length]
  rfl

theorem LFQueue.Inv_new : LFQueue.Inv NewLFQueue [] 0 where
  len := rfl
  nodes := by
    intro i hi
    have : i = 0 := by simpa using hi
    subst this
    rfl
  head := rfl
  tail := rfl
  le := Nat.le_refl 0

theorem LFQueue.Enqueue_inv {q : LFQueue} {vals : List Val} {k : Nat} (inv : LFQueue.Inv q vals k)
    (fuel : Nat) (v : Val) :
    ∃ q1, LFQueue.Enqueue (fuel + 1) q v = Except.ok q1 ∧ LFQueue.Inv q1 (vals ++ [v]) k := by
  have hlt : vals.length < q.heap.length := by rw [inv.len]; omega
  have h1 : (q.heap ++ [({ value := v, next := none } : node)])[vals.length]?
      = some (LFQueue.expNode vals vals.length) := by
    rw [List.getElem?_append_left hlt]
    exact inv.nodes _ (Nat.le_refl _)
  have hnext : (LFQueue.expNode vals vals.length).next = none := by
    simp [LFQueue.expNode]
  refine ⟨{ heap := (q.heap ++ [({ value := v, next := none } : node)]).set vals.length
              { LFQueue.expNode vals vals.length with next := some (vals.length + 1) },
            head := q.head, tail := some (vals.length + 1) }, ?_, ?_⟩
  · simp [LFQueue.Enqueue, LFQueue.enqueueLoop, LFQueue.deref, LFQueue.nextOf, LFQueue.load,
      LFQueue.cas, bind, Except.bind, pure, Except.pure, inv.tail, h1, hnext, inv.len]
  · refine ⟨?_, ?_, inv.head, ?_, ?_⟩
    · simp [inv.len]
    · intro i hi
      simp only [List.length_append, List.length_singleton] at hi
      by_cases h0 : i = vals.length
      · subst h0
        have hl : vals.length < (q.heap ++ [({ value := v, next := none } : node)]).length := by
          simp
          omega
        simp only
        rw [List.getElem?_set_self hl, LFQueue.expNode_append_length]
      · simp only
        rw [List.getElem?_set_ne (Ne.symm h0)]
        by_cases h2 : i < vals.length
        · rw [List.getElem?_append_left (by omega), inv.nodes i (by omega),
            LFQueue.expNode_append_of_lt vals v h2]
        · have h3 : i = q.heap.length := by rw [inv.len]; omega
          have h4 : i = vals.length + 1 := by omega
          rw [h3, List.getElem?_concat_length, ← h3, h4, LFQueue.expNode_append_succ]
    · simp
    · have := inv.le
      simp
      omega

theorem LFQueue.Dequeue_inv {q : LFQueue} {vals : List Val} {k : Nat} (inv : LFQueue.Inv q vals k)
    (hk : k < vals.length) (fuel : Nat) :
    LFQueue.Dequeue (fuel + 1) q = Except.ok (vals.getD k none, { q with head := some (k + 1) })
    ∧ LFQueue.Inv { q with head := some (k + 1) } vals (k + 1) := by
  have h1 : q.heap[k]? = some (LFQueue.expNode vals k) := inv.nodes k inv.le
  have h2 : q.heap[k + 1]? = some (LFQueue.expNode vals (k + 1)) := inv.nodes (k + 1) hk
  have hne : ¬ k = vals.length := by omega
  constructor
  · simp [LFQueue.Dequeue, LFQueue.deref, LFQueue.nextOf, LFQueue.load, LFQueue.cas, bind,
      Except.bind, pure, Except.pure, inv.head, inv.tail, h1, h2, LFQueue.expNode, hk, hne]
  · exact ⟨inv.len, inv.nodes, rfl, inv.tail, hk⟩

theorem LFQueue.Dequeue_empty {q : LFQueue} {vals : List Val}
    (inv : LFQueue.Inv q vals vals.length) (fuel : Nat) :
    LFQueue.Dequeue (fuel + 1) q = Except.ok (none, q) := by
  have h1 : q.heap[vals.length]? = some (LFQueue.expNode vals vals.length) :=
    inv.nodes _ (Nat.le_refl _)
  simp [LFQueue.Dequeue, LFQueue.deref, LFQueue.nextOf, LFQueue.load, bind, Except.bind,
    pure, Except.pure, inv.head, inv.tail, h1, LFQueue.expNode]

theorem LFQueue.enqueueAll_inv (fuel : Nat) (vs : List Val) {q : LFQueue} {vals : List Val}
    {k : Nat} (inv : LFQueue.Inv q vals k) :
    ∃ q1, LFQueue.enqueueAll (fuel + 1) q vs = Except.ok q1 ∧ LFQueue.Inv q1 (vals ++ vs) k := by
  induction vs generalizing q vals with
  | nil => exact ⟨q, rfl, by simpa using inv⟩
  | cons v vs ih =>
    obtain ⟨q1, he, inv1⟩ := LFQueue.Enqueue_inv inv fuel v
    obtain ⟨q2, he2, inv2⟩ := ih inv1
    refine ⟨q2, ?_, by simpa using inv2⟩
    simp only [LFQueue.enqueueAll, he]
    exact he2

theorem LFQueue.dequeueN_inv (fuel : Nat) (m : Nat) {q : LFQueue} {vals : List Val} {k : Nat}
    (inv : LFQueue.Inv q vals k) (hm : k + m ≤ vals.length) :
    ∃ q1, LFQueue.dequeueN (fuel + 1) q m = Except.ok ((vals.drop k).take m, q1)
      ∧ LFQueue.Inv q1 vals (k + m) := by
  induction m generalizing q k with
  | zero => exact ⟨q, by simp [LFQueue.dequeueN], inv⟩
  | succ m ih =>
    have hk : k < vals.length := by omega
    obtain ⟨hd, inv1⟩ := LFQueue.Dequeue_inv inv hk fuel
    obtain ⟨q2, hd2, inv2⟩ := ih inv1 (by omega)
    refine ⟨q2, ?_, by rw [← Nat.add_assoc, Nat.add_right_comm]; exact inv2⟩
    have hdrop : vals.drop k = vals.getD k none :: vals.drop (k + 1) := by
      rw [List.getD_eq_getElem _ _ hk]
      exact List.drop_eq_getElem_cons hk
    simp only [LFQueue.dequeueN, hd, hd2, hdrop, List.take_succ_cons]

theorem LKQueue.enqueueAll_data (vs : List Val) (q : LKQueue) :
    (q.enqueueAll vs).data = q.data ++ vs := by
  induction vs generalizing q with
  | nil => simp [LKQueue.enqueueAll]
  | cons v vs ih =>
    have := ih (q.Enqueue v)
    simp only [LKQueue.enqueueAll, List.foldl_cons] at this ⊢
    rw [this]
    simp [LKQueue.Enqueue]

theorem LKQueue.dequeueN_data (m : Nat) (q : LKQueue) (hm : m ≤ q.data.length) :
    (q.dequeueN m).1 = q.data.take m ∧ (q.dequeueN m).2.data = q.data.drop m := by
  induction m generalizing q with
  | zero => simp [LKQueue.dequeueN]
  | succ m ih =>
    obtain ⟨data⟩ := q
    cases data with
    | nil => simp at hm
    | cons v rest =>
      have := ih { data := rest } (by simpa using hm)
      simp only [LKQueue.dequeueN, LKQueue.Dequeue, List.take_succ_cons, List.drop_succ_cons]
      exact ⟨by rw [this.1], this.2⟩

/-- C6, as stated, fails: `n = 2^44 + 1` is not negative, yet
`NewLKQueue(2^44 + 1)` panics in `make` ("makeslice: cap out of range", the
array would take more than `maxAlloc` bytes) however much memory there is
(here 2^64 bytes), so the run on the values 0, 1, ..., 99 returns nothing. -/
theorem fifo_order_sequential_counterexample :
    (0 : Int) ≤ 2 ^ 44 + 1
    ∧ LKQueue.fifoRun (2 ^ 64) (2 ^ 44 + 1) (((List.range 100).map Int.ofNat).map some)
        = Except.error Fault.makeOutOfRange
    ∧ LKQueue.fifoRun (2 ^ 64) (2 ^ 44 + 1) (((List.range 100).map Int.ofNat).map some)
        ≠ Except.ok (((List.range 100).map Int.ofNat).map some) := by
  have hcap : ifaceSize * ((2 : Int) ^ 44 + 1).toNat > maxAlloc := by
    have h : ((2 : Int) ^ 44 + 1).toNat = 2 ^ 44 + 1 := by
      have h2 : ((2 : Int) ^ 44 + 1) = (((2 ^ 44 + 1 : Nat)) : Int) := by norm_num
      rw [h2, Int.toNat_natCast]
    rw [h]
    norm_num [ifaceSize, maxAlloc]
  have hrun : LKQueue.fifoRun (2 ^ 64) (2 ^ 44 + 1) (((List.range 100).map Int.ofNat).map some)
      = Except.error Fault.makeOutOfRange := by
    simp only [LKQueue.fifoRun, NewLKQueue, hcap, or_true, if_true]
  refine ⟨by positivity, hrun, ?_⟩
  rw [hrun]
  simp

/-- C6, amended: under sequential use both queues are first-in first-out: for
every list `xs` of non-nil values, enqueuing `xs` in order into a fresh queue
and dequeuing `len(xs)` times returns exactly `xs` in order, no value nil; the
fresh queue is `NewLFQueue()`, or `NewLKQueue(n)` for an `n ≥ 0` whose backing
array of `ifaceSize * n` bytes passes the range check of `make` (at most
`maxAlloc` bytes) and can be allocated (at most `memAvail` bytes). Every call
of the lock-free queue ends within one iteration of its loop (any positive
fuel suffices). -/
theorem fifo_order_sequential (xs : List Int) (fuel : Nat) (memAvail : Nat) (n : Int)
    (hn : 0 ≤ n) (hcap : ifaceSize * n.toNat ≤ maxAlloc)
    (hmem : ifaceSize * n.toNat ≤ memAvail) :
    LFQueue.fifoRun (fuel + 1) (xs.map some) = Except.ok (xs.map some)
    ∧ LKQueue.fifoRun memAvail n (xs.map some) = Except.ok (xs.map some)
    ∧ (∀ v ∈ xs.map (some : Int → Val), v ≠ none) := by
  refine ⟨?_, ?_, ?_⟩
  · obtain ⟨q1, he, inv1⟩ := LFQueue.enqueueAll_inv fuel (xs.map some) LFQueue.Inv_new
    simp only [List.nil_append] at inv1
    obtain ⟨q2, hd, _⟩ := LFQueue.dequeueN_inv fuel (xs.map some).length inv1 (by omega)
    simp only [LFQueue.fifoRun, he, hd]
    simp
  · have hn2 : ¬ (n < 0 ∨ ifaceSize * n.toNat > maxAlloc) := by
      intro h
      rcases h with h | h <;> omega
    have hm2 : ¬ ifaceSize * n.toNat > memAvail := by omega
    have h1 := LKQueue.enqueueAll_data (xs.map some) { data := [] }
    have h2 := LKQueue.dequeueN_data (xs.map some).length
      (LKQueue.enqueueAll { data := [] } (xs.map some)) (by rw [h1]; simp)
    simp only [LKQueue.fifoRun, NewLKQueue, hn2, hm2, if_false]
    rw [h2.1, h1]
    simp
  · intro v hv
    simp only [List.mem_map] at hv
    obtain ⟨x, _, rfl⟩ := hv
    simp

/-- C6 at the input of `TestQueue`: the values 0, 1, ..., 99 and
`NewLKQueue(0)`, whose empty backing array needs no memory. -/
theorem fifo_order_sequential_witness :
    (0 : Int) ≤ 0
    ∧ ifaceSize * (0 : Int).toNat ≤ maxAlloc
    ∧ ifaceSize * (0 : Int).toNat ≤ 0
    ∧ LFQueue.fifoRun 1 (((List.range 100).map Int.ofNat).map some)
        = Except.ok (((List.range 100).map Int.ofNat).map some)
    ∧ LKQueue.fifoRun 0 0 (((List.range 100).map Int.ofNat).map some)
        = Except.ok (((List.range 100).map Int.ofNat).map some) :=
  ⟨by decide, by decide, by decide,
    (fifo_order_sequential ((List.range 100).map Int.ofNat) 0 0 0
      (by decide) (by decide) (by decide)).1,
    (fifo_order_sequential ((List.range 100).map Int.ofNat) 0 0 0
      (by decide) (by decide) (by decide)).2.1⟩

/-! ## Theorems on start, shutdown and the cluster harness -/

theorem Server.ShutDown_nil_wg (s : Server)
    (stop : Option ConsensusModule → Except Fault (Option ConsensusModule)) (s1 : Server)
    (h : s.wg = none) : s.ShutDown stop ≠ Except.ok s1 := by
  unfold Server.ShutDown
  cases stop s.cm with
  | error f => simp
  | ok cm =>
    cases hq : s.quitClosed with
    | true => simp [hq]
    | false =>
      cases hl : s.listener with
      | none => simp [hq, hl]
      | some l => simp [hq, hl, h]

/-- C10, as the code behaves: on every server built by `NewServer` the wait
group `wg` is the nil pointer, so `Server()` (here `Start`), even when
listening succeeds, ends in a nil-pointer panic at `s.wg.Add(1)` before the
accept loop is started, and `ShutDown()` never returns normally on a server
whose `wg` is nil, whatever `ConsensusModule.Stop` does. -/
theorem Server.Start_fresh_nil_wg (serverID : Int) (peerIds : List Int) (storage : MapStorage)
    (commitChan ready : Nat) (newCM : ConsensusModule) (a : Addr) :
    (NewServer serverID peerIds storage commitChan ready).wg = none
    ∧ (NewServer serverID peerIds storage commitChan ready).Start newCM (Except.ok a)
        = Except.error Fault.nilDeref
    ∧ (∀ (stop : Option ConsensusModule → Except Fault (Option ConsensusModule)) (s1 : Server),
        (NewServer serverID peerIds storage commitChan ready).ShutDown stop ≠ Except.ok s1)
    ∧ (∀ (s : Server) (stop : Option ConsensusModule → Except Fault (Option ConsensusModule))
        (s1 : Server), s.wg = none → s.ShutDown stop ≠ Except.ok s1) := by
  refine ⟨rfl, rfl, ?_, ?_⟩
  · intro stop s1
    exact Server.ShutDown_nil_wg _ stop s1 rfl
  · intro s stop s1 h
    exact Server.ShutDown_nil_wg s stop s1 h

/-- C9, as the code behaves at `NewEngine(t, 2)`: the first `Server()` call
panics on the nil wait group, so `NewEngine` returns no engine; and the wiring
loop, run on two servers that listen at `a0` and `a1`, makes server 0 dial
`a0` for peer 1 and server 1 dial `a1` for peer 0: each server dials its own
listen address, not the peer's. -/
theorem NewEngine_two_dials_own_address (newCM : Int → List Int → ConsensusModule)
    (dial : String → String → Except Err Client) (a0 a1 : Addr) :
    NewEngine 2 newCM (fun i => Except.ok (if i = 0 then a0 else a1)) dial
      = Except.error Fault.nilDeref
    ∧ (NewEngine.connectLoop dial 2 [0, 1]
        ({ cluster :=
            [some { NewServer 0 (NewEngine.peerIds 2 0) NewMapStorage 1 0 with
                      listener := some { addr := a0, closed := false }, wg := some 1 },
             some { NewServer 1 (NewEngine.peerIds 2 1) NewMapStorage 2 0 with
                      listener := some { addr := a1, closed := false }, wg := some 1 }]
           storage := [some NewMapStorage, some NewMapStorage]
           commitChans := [some 1, some 2]
           commits := [[], []]
           connected := [false, false]
           alive := [true, true]
           n := 2 }, [])).map (fun r => dialsOf r.2)
      = Except.ok [(0, a0.network, a0.str), (1, a1.network, a1.str)] := by
  constructor
  · rfl
  · cases h0 : dial a0.network a0.str <;> cases h1 : dial a1.network a1.str <;>
      simp [NewEngine.connectLoop, NewEngine.connectRow, NewEngine.connectPair, List.range,
        List.range.loop, Server.GetListenAddr, Server.ConnectToPeer, Server.peer, NewServer,
        GoMap.find?, h0, h1, dialsOf, Except.map]

end Distributed
